import Mathlib

/-!
Verification of the QDR software-calibration core (`qdr.py`).

The Python source is shallowly embedded below.  Hardware interaction is
modelled by oracles:

* a `cal_check` result oracle `cal : Nat -> Bool` giving the boolean result of
  the k-th `_cal_check` call (the active code returns a `bool`, not a mask);
* a memory-readback oracle `ret : Nat -> List Nat` giving, for the i-th test
  pattern, the big-endian 32-bit words read back from the QDR memory window
  (`struct.pack`/`struct.unpack` with the same format are mutually inverse, so
  modelling the readback at word granularity is exact; a short read is a list
  whose length differs from the pattern's);
* a clock-readback oracle `clk : Nat -> Nat` giving the raw value returned by
  the k-th read of control-register word offset 8.

Machine integers are modelled as `Nat`/`Int`; the numpy float64 array
`cal_steps` is modelled as `List Rat` (every value that occurs -- small
integers and half-integers -- is exactly representable in float64, so `Rat`
arithmetic coincides with the source's float arithmetic on all reachable
values).  Python 2 integer division `/` on nonneg ints is `Nat` division.
Note two properties of the active source faithfully preserved here:
`_cal_check` returns a `bool` (not the accumulated mask), and
`bit_cal = [[]] * n_bits` makes all 32 per-bit lists alias ONE shared list,
so every `bit_cal[bit]` is the same 1024-entry list.
-/

set_option maxRecDepth 100000

/-- Python coerces `bool` to `int` (`True = 1`, `False = 0`) when a boolean is
used in arithmetic or bitwise expressions, as `_find_in_delays` does with the
value returned by `_cal_check`. -/
def pyInt (b : Bool) : Nat := if b then 1 else 0

/-- The distinct `RuntimeError`s raised by the module, told apart by their
message strings in the source. -/
inductive QdrError where
  | perBitCalibrationFailed (bit : Nat)
  | noRobustTap
  | hardwareInconsistent
  | calibrationFailed
  deriving DecidableEq, Repr

/-- The fixed test-pattern battery `calibration_data` of `qdr.py`:
`[0xAAAAAAAA, 0x55555555] * 16`, the sparse 8-word pattern, and the four
256-word ramps `numpy.arange(256) << k` for k in 0, 8, 16, 24. -/
def calibrationData : List (List Nat) :=
  [ (List.replicate 16 [0xAAAAAAAA, 0x55555555]).flatten,
    [0, 0, 0xFFFFFFFF, 0, 0, 0, 0, 0],
    (List.range 256).map (fun i => i <<< 0),
    (List.range 256).map (fun i => i <<< 8),
    (List.range 256).map (fun i => i <<< 16),
    (List.range 256).map (fun i => i <<< 24) ]

/-- One pattern's contribution to `pattern_fail`:
`pattern_fail = pattern_fail | (word ^ retdat[word_n])` over every word. -/
def xorAccum (pattern ret : List Nat) (acc : Nat) : Nat :=
  (pattern.zip ret).foldl (fun a pr => a ||| (pr.1 ^^^ pr.2)) acc

/-- The accumulated `pattern_fail` value of `_cal_check` over a battery, given
the readback oracle; `none` models the early `return False` on a short read
(`len(data) != len(pattern) * 4`). -/
def calCheckMask : List (List Nat) → (Nat → List Nat) → Nat → Nat → Option Nat
  | [], _, _, acc => some acc
  | p :: rest, ret, i, acc =>
    if (ret i).length = p.length then calCheckMask rest ret (i + 1) (xorAccum p (ret i) acc)
    else none

/-- `Qdr._cal_check`: writes each pattern, reads it back, accumulates
`pattern_fail`, and returns `False` on a short read or when
`pattern_fail > 0`, else `True`.  The return value is a boolean, exactly as in
the active source. -/
def calCheck (ret : Nat → List Nat) : Bool :=
  match calCheckMask calibrationData ret 0 0 with
  | none => false
  | some m => if 0 < m then false else true

/-- The readback oracle in which every pattern reads back bit-identical. -/
def perfectReadback : Nat → List Nat := fun i => calibrationData.getD i []

/-- The value `1 - 2 * ((fail[step] & (1 << bit)) >> bit)` appended to
`bit_cal[bit]` in `_find_in_delays`, where `fail[step]` is the boolean
returned by `_cal_check` (coerced to an int by Python's `&`). -/
def bitCalEntry (stepfail : Bool) (bit : Nat) : Int :=
  1 - 2 * (((pyInt stepfail &&& (1 <<< bit)) >>> bit : Nat) : Int)

/-- The 32 values appended (one per bit, in bit order 0..31) during one step
of the eye scan whose `_cal_check` returned `r`. -/
def blockOf (r : Bool) : List Int := (List.range 32).map (fun bit => bitCalEntry r bit)

/-- The single list shared by all 32 entries of `bit_cal = [[]] * n_bits`
after the 32-step scan loop of `_find_in_delays`, when the k-th `_cal_check`
call of the run is `cal (c + k)`.  The inner loop `for bit in range(n_bits)`
appends to the one aliased list, so entries appear in (step, bit)
lexicographic order: 32 steps times 32 bits = 1024 entries. -/
def scanTimeline (cal : Nat → Bool) (c : Nat) : List Int :=
  ((List.range 32).map (fun step => blockOf (cal (c + step)))).flatten

/-- The loop state of `_find_cal_area` (Kadane variant): `max_so_far`,
`max_ending_here`, `begin_index`, `begin_temp`, `end_index`. -/
structure KState where
  maxSoFar : Int
  maxEndingHere : Int
  beginIndex : Nat
  beginTemp : Nat
  endIndex : Nat
  deriving DecidableEq, Repr

/-- One iteration of the `for i in range(len(area))` loop of
`_find_cal_area`: reset or extend `max_ending_here`, then update
`(max_so_far, begin_index, end_index)` whenever `max_ending_here >= max_so_far`
(greater-or-EQUAL, so later ties overwrite the recorded run). -/
def kadaneStep (s : KState) (i : Nat) (a : Int) : KState :=
  let t := if s.maxEndingHere < 0 then { s with maxEndingHere := a, beginTemp := i }
           else { s with maxEndingHere := s.maxEndingHere + a }
  if t.maxSoFar ≤ t.maxEndingHere then
    { t with maxSoFar := t.maxEndingHere, beginIndex := t.beginTemp, endIndex := i }
  else t

/-- The loop of `_find_cal_area` run over the remaining elements, `i` being
the index of the first of them. -/
def kadaneRunFrom : KState → Nat → List Int → KState
  | s, _, [] => s
  | s, i, a :: rest => kadaneRunFrom (kadaneStep s i a) (i + 1) rest

/-- `_find_cal_area(area)`: initialises both `max_so_far` and
`max_ending_here` to `area[0]`, runs the loop from `i = 0` (so `area[0]` is
processed a second time by the loop, exactly as in the source), and returns
`(max_so_far, begin_index, end_index)`.  On `[]` the source would raise an
`IndexError`; callers only pass nonempty lists. -/
def findCalArea (area : List Int) : Int × Nat × Nat :=
  match area with
  | [] => (0, 0, 0)
  | a0 :: _ =>
    let f := kadaneRunFrom ⟨a0, a0, 0, 0, 0⟩ 0 area
    (f.maxSoFar, f.beginIndex, f.endIndex)

/-- The value of `max_ending_here` just after the loop of `_find_cal_area`
has processed index `j` of `area`. -/
def mehAt (area : List Int) (j : Nat) : Int :=
  match area with
  | [] => 0
  | a0 :: _ => (kadaneRunFrom ⟨a0, a0, 0, 0, 0⟩ 0 (area.take (j + 1))).maxEndingHere

/-- `numpy.median`: sort a copy; for an even count, average the two middle
elements, else take the middle element. -/
def npMedian (l : List ℚ) : ℚ :=
  let s := l.insertionSort (· ≤ ·)
  if l.length % 2 = 1 then s.getD (l.length / 2) 0
  else (s.getD (l.length / 2 - 1) 0 + s.getD (l.length / 2) 0) / 2

/-- Modelled from the claim's words, for comparison with the source: the
"integer median" of a list -- sort a copy, average the two middle elements on
an even count, then truncate to an integer. -/
def specMedianTrunc (l : List ℚ) : ℤ :=
  let s := l.insertionSort (· ≤ ·)
  ⌊(s.getD (l.length / 2 - 1) 0 + s.getD (l.length / 2) 0) / 2⌋

/-- `Qdr._find_in_delays`, with the k-th `_cal_check` result of this run given
by `cal (c + k)`.  Because `bit_cal = [[]] * n_bits` aliases one list,
`bit_cal[bit]` below is the shared `scanTimeline cal c` for every `bit`.
The first loop raises "Calibration failed for bit i" for the first bit whose
list has no `+1` (`bit_cal[bit].index(1)` raising `ValueError`); the second
raises "Could not find a robust calibration setting" for the first bit whose
`cal_area[0] < 4`; otherwise `cal_steps[bit] = sum(cal_area[1:3])/2` (Python 2
floor division), and after `median_taps = numpy.median(cal_steps)` is taken
over the full 36-entry array (entries 32..35 still zero), bits 32..35 are
assigned `median_taps`.  The returned list is the final numpy array. -/
def findInDelaysAt (cal : Nat → Bool) (c : Nat) : Except QdrError (List ℚ) :=
  let timeline := scanTimeline cal c
  match (List.range 32).find? (fun _bit => decide (¬ (1 : Int) ∈ timeline)) with
  | some b => .error (.perBitCalibrationFailed b)
  | none =>
    match (List.range 32).find? (fun _bit => decide ((findCalArea timeline).1 < 4)) with
    | some _ => .error .noRobustTap
    | none =>
      let tap : Nat := ((findCalArea timeline).2.1 + (findCalArea timeline).2.2) / 2
      let calSteps : List ℚ := (List.range 32).map (fun _bit => (tap : ℚ)) ++ [0, 0, 0, 0]
      let medianTaps : ℚ := npMedian calSteps
      .ok ((List.range 32).map (fun _bit => (tap : ℚ)) ++
           (List.range 4).map (fun _bit => medianTaps))

/-- The value returned by `_find_in_delays` when it does not raise: 32 copies
of the common tap followed by 4 copies of the median (see `findInDelaysAt`). -/
def okSteps (cal : Nat → Bool) (c : Nat) : List ℚ :=
  let timeline := scanTimeline cal c
  let tap : Nat := ((findCalArea timeline).2.1 + (findCalArea timeline).2.2) / 2
  let medianTaps : ℚ :=
    npMedian ((List.range 32).map (fun _bit => (tap : ℚ)) ++ [0, 0, 0, 0])
  (List.range 32).map (fun _bit => (tap : ℚ)) ++
    (List.range 4).map (fun _bit => medianTaps)

theorem bitCalEntry_succ (r : Bool) (b : Nat) : bitCalEntry r (b + 1) = 1 := by
  have h : pyInt r &&& (1 <<< (b + 1)) = 0 := by
    cases r
    · simp [pyInt]
    · simp only [pyInt, if_true]
      rw [Nat.and_comm, Nat.and_one_is_mod, Nat.shiftLeft_eq, one_mul, pow_succ,
        Nat.mul_mod_left]
  rw [bitCalEntry, h, Nat.zero_shiftRight]
  norm_num

theorem blockOf_eq (r : Bool) :
    blockOf r = bitCalEntry r 0 :: List.replicate 31 1 := by
  rw [blockOf, List.range_succ_eq_map, List.map_cons, List.map_map]
  congr 1
  rw [show List.replicate 31 (1 : Int) =
      (List.range 31).map (fun _ => (1 : Int)) by simp]
  exact List.map_congr_left (fun b _ => bitCalEntry_succ r b)

theorem scanTimeline_eq (cal : Nat → Bool) (c : Nat) :
    scanTimeline cal c =
      blockOf (cal c) ++
        ((List.range 31).map (fun step => blockOf (cal (c + (step + 1))))).flatten := by
  rw [scanTimeline, List.range_succ_eq_map, List.map_cons, List.flatten_cons,
    List.map_map]
  congr 2

theorem one_mem_scanTimeline (cal : Nat → Bool) (c : Nat) :
    (1 : Int) ∈ scanTimeline cal c := by
  rw [scanTimeline_eq, blockOf_eq]
  simp [List.mem_replicate]

theorem kadaneStep_msf_le (s : KState) (i : Nat) (a : Int) :
    s.maxSoFar ≤ (kadaneStep s i a).maxSoFar := by
  by_cases h : s.maxEndingHere < 0 <;>
    simp only [kadaneStep, h, if_true, if_false] <;> split <;> simp_all

theorem msf_mono (l : List Int) : ∀ (s : KState) (i : Nat),
    s.maxSoFar ≤ (kadaneRunFrom s i l).maxSoFar := by
  induction l with
  | nil => intro s i; exact le_refl _
  | cons a rest ih =>
    intro s i
    exact le_trans (kadaneStep_msf_le s i a) (ih (kadaneStep s i a) (i + 1))

theorem kadaneRunFrom_cons (s : KState) (i : Nat) (a : Int) (rest : List Int) :
    kadaneRunFrom s i (a :: rest) = kadaneRunFrom (kadaneStep s i a) (i + 1) rest := rfl

theorem findCalArea_fst_cons (a0 : Int) (rest : List Int) :
    (findCalArea (a0 :: rest)).1 =
      (kadaneRunFrom ⟨a0, a0, 0, 0, 0⟩ 0 (a0 :: rest)).maxSoFar := rfl

/-- The five leading entries of the scan timeline force `max_so_far` to at
least 4 within the first five loop iterations; it never decreases afterwards.
Hence the "robust calibration" check of `_find_in_delays` can never fire in
the active code. -/
theorem findCalArea_scan_ge_4 (cal : Nat → Bool) (c : Nat) :
    4 ≤ (findCalArea (scanTimeline cal c)).1 := by
  have ht : scanTimeline cal c =
      bitCalEntry (cal c) 0 :: (1 :: 1 :: 1 :: 1 ::
        (List.replicate 27 1 ++
          ((List.range 31).map (fun step => blockOf (cal (c + (step + 1))))).flatten)) := by
    rw [scanTimeline_eq, blockOf_eq]
    rfl
  rw [ht]
  cases h : cal c
  · rw [show bitCalEntry false 0 = 1 from by decide]
    rw [findCalArea_fst_cons]
    rw [kadaneRunFrom_cons, show kadaneStep ⟨1, 1, 0, 0, 0⟩ 0 1 = ⟨2, 2, 0, 0, 0⟩ from by decide]
    rw [kadaneRunFrom_cons, show kadaneStep ⟨2, 2, 0, 0, 0⟩ 1 1 = ⟨3, 3, 0, 0, 1⟩ from by decide]
    rw [kadaneRunFrom_cons, show kadaneStep ⟨3, 3, 0, 0, 1⟩ 2 1 = ⟨4, 4, 0, 0, 2⟩ from by decide]
    rw [kadaneRunFrom_cons, show kadaneStep ⟨4, 4, 0, 0, 2⟩ 3 1 = ⟨5, 5, 0, 0, 3⟩ from by decide]
    rw [kadaneRunFrom_cons, show kadaneStep ⟨5, 5, 0, 0, 3⟩ 4 1 = ⟨6, 6, 0, 0, 4⟩ from by decide]
    exact le_trans (by norm_num) (msf_mono _ ⟨6, 6, 0, 0, 4⟩ 5)
  · rw [show bitCalEntry true 0 = -1 from by decide]
    rw [findCalArea_fst_cons]
    rw [kadaneRunFrom_cons,
      show kadaneStep ⟨-1, -1, 0, 0, 0⟩ 0 (-1) = ⟨-1, -1, 0, 0, 0⟩ from by decide]
    rw [kadaneRunFrom_cons, show kadaneStep ⟨-1, -1, 0, 0, 0⟩ 1 1 = ⟨1, 1, 1, 1, 1⟩ from by decide]
    rw [kadaneRunFrom_cons, show kadaneStep ⟨1, 1, 1, 1, 1⟩ 2 1 = ⟨2, 2, 1, 1, 2⟩ from by decide]
    rw [kadaneRunFrom_cons, show kadaneStep ⟨2, 2, 1, 1, 2⟩ 3 1 = ⟨3, 3, 1, 1, 3⟩ from by decide]
    rw [kadaneRunFrom_cons, show kadaneStep ⟨3, 3, 1, 1, 3⟩ 4 1 = ⟨4, 4, 1, 1, 4⟩ from by decide]
    exact msf_mono _ ⟨4, 4, 1, 1, 4⟩ 5

/-- In the active code `_find_in_delays` never raises: every aliased per-bit
list contains a `+1` (bits 1..31 record `+1` at every step because the
boolean `_cal_check` result has no bits above bit 0), and the Kadane maximum
over the shared 1024-entry list is always at least 4. -/
theorem findInDelays_ok (cal : Nat → Bool) (c : Nat) :
    findInDelaysAt cal c = .ok (okSteps cal c) := by
  have h1 := one_mem_scanTimeline cal c
  have h4 := findCalArea_scan_ge_4 cal c
  rw [findInDelaysAt]
  have f1 : (List.range 32).find?
      (fun _bit => decide (¬ (1 : Int) ∈ scanTimeline cal c)) = none := by
    rw [List.find?_eq_none]
    intro x _
    simpa using h1
  have f2 : (List.range 32).find?
      (fun _bit => decide ((findCalArea (scanTimeline cal c)).1 < 4)) = none := by
    rw [List.find?_eq_none]
    intro x _
    simp only [decide_eq_true_eq, not_lt]
    omega
  rw [f1, f2, okSteps]

/-- C1: the spec says `_cal_check` returns the accumulated 32-bit fail mask
(zero meaning all bits passed) and that the eye scan records that mask per
step.  The active code computes `pattern_fail` but returns a boolean: on a
perfect readback the mask is 0 yet the returned value, used as an integer by
`_find_in_delays`, is 1 -- so the scan records bit 0 as FAILED on a step whose
check passed. -/
theorem c1_cal_check_returns_bool_not_mask :
    calCheckMask calibrationData perfectReadback 0 0 = some 0 ∧
    calCheck perfectReadback = true ∧
    pyInt (calCheck perfectReadback) = 1 ∧
    bitCalEntry (calCheck perfectReadback) 0 = -1 := by
  refine ⟨by decide, by decide, by decide, by decide⟩

/-- The oracle of a run in which every `_cal_check` fails (returns `False`). -/
def allFalseOracle : Nat → Bool := fun _ => false

/-- C2 (amended claim): the per-bit check of `_find_in_delays` looks for the
presence of a pass entry (`bit_cal[bit].index(1)`), not the absence of fails;
and because the boolean `_cal_check` result makes bits 1..31 record `+1` at
every step in the shared aliased list, a pass entry is always present and
`_find_in_delays` returns a tap vector -- the per-bit calibration-failed
error is never raised, for any oracle. -/
theorem c2_per_bit_error_never_raised (cal : Nat → Bool) (c : Nat) :
    ((1 : Int) ∈ scanTimeline cal c) ∧
    findInDelaysAt cal c = .ok (okSteps cal c) :=
  ⟨one_mem_scanTimeline cal c, findInDelays_ok cal c⟩

/-- C2 (counterexample to the claim as stated): in the all-fail run no entry
of the (shared) timeline is `-1` -- per the claim every bit "never failed" and
the per-bit error should be raised -- yet `_find_in_delays` raises nothing and
returns a tap vector. -/
theorem c2_no_fail_timeline_not_raised :
    (scanTimeline allFalseOracle 0).all (fun e => decide (e ≠ -1)) = true ∧
    findInDelaysAt allFalseOracle 0 = .ok (okSteps allFalseOracle 0) :=
  ⟨by decide, findInDelays_ok allFalseOracle 0⟩

/-- C3: the spec says each of the 32 observable bits has its own independent
length-32 plus-minus-one sequence with `+1` exactly when the bit passed.  In
the active code `bit_cal = [[]] * n_bits` makes all 32 entries alias ONE list
(embedded as `scanTimeline`), which after the scan has 32 x 32 = 1024 entries,
not 32; and the entries are derived from the boolean `_cal_check` result: a
passing step records `-1` for bit 0, and a failing step records `+1` for
every bit. -/
theorem c3_timeline_shared_and_misrecorded :
    (scanTimeline (fun _ => true) 0).length = 1024 ∧ (1024 : Nat) ≠ 32 ∧
    bitCalEntry true 0 = -1 ∧ bitCalEntry false 3 = 1 := by
  refine ⟨by decide, by decide, by decide, by decide⟩

theorem getD_replicate_lt {α : Type} (n m : Nat) (a d : α) (h : m < n) :
    (List.replicate n a).getD m d = a := by
  rw [List.getD_eq_getElem _ _ (by simpa using h)]
  simp

theorem insertionSort_rep32_rep4 (t : Nat) :
    (List.replicate 32 ((t : ℕ) : ℚ) ++ List.replicate 4 0).insertionSort (· ≤ ·) =
      List.replicate 4 0 ++ List.replicate 32 ((t : ℕ) : ℚ) := by
  refine List.eq_of_perm_of_sorted
    ((List.perm_insertionSort _ _).trans List.perm_append_comm)
    (List.sorted_insertionSort _ _) ?_
  refine List.pairwise_append.mpr
    ⟨(List.pairwise_replicate).mpr (Or.inr le_rfl),
     (List.pairwise_replicate).mpr (Or.inr le_rfl), ?_⟩
  intro a ha b hb
  rw [List.eq_of_mem_replicate ha, List.eq_of_mem_replicate hb]
  exact Nat.cast_nonneg t

theorem insertionSort_rep32 (t : Nat) :
    (List.replicate 32 ((t : ℕ) : ℚ)).insertionSort (· ≤ ·) =
      List.replicate 32 ((t : ℕ) : ℚ) :=
  List.eq_of_perm_of_sorted (List.perm_insertionSort _ _)
    (List.sorted_insertionSort _ _) ((List.pairwise_replicate).mpr (Or.inr le_rfl))

/-- `numpy.median` of the 36-entry `cal_steps` array just before the
unobservable bits are filled in: 32 copies of the tap and the four still-zero
entries.  The two middle elements of the sorted copy are both the tap. -/
theorem npMedian_rep (t : Nat) :
    npMedian (List.replicate 32 ((t : ℕ) : ℚ) ++ List.replicate 4 0) = t := by
  have hl : (List.replicate 32 ((t : ℕ) : ℚ) ++ List.replicate 4 0).length = 36 := by simp
  rw [npMedian, insertionSort_rep32_rep4, hl]
  rw [if_neg (by norm_num)]
  rw [show (36 / 2 - 1 : ℕ) = 17 from rfl, show (36 / 2 : ℕ) = 18 from rfl]
  rw [List.getD_append_right _ _ _ _ (by simp), List.getD_append_right _ _ _ _ (by simp)]
  simp only [List.length_replicate]
  rw [show (17 - 4 : ℕ) = 13 from rfl, show (18 - 4 : ℕ) = 14 from rfl]
  rw [getD_replicate_lt _ _ _ _ (by norm_num), getD_replicate_lt _ _ _ _ (by norm_num)]
  ring

/-- The claim-side "integer median": on 32 equal values it is that value. -/
theorem specMedianTrunc_rep (t : Nat) :
    specMedianTrunc (List.replicate 32 ((t : ℕ) : ℚ)) = t := by
  have hl : (List.replicate 32 ((t : ℕ) : ℚ)).length = 32 := by simp
  rw [specMedianTrunc, insertionSort_rep32, hl]
  rw [show (32 / 2 - 1 : ℕ) = 15 from rfl, show (32 / 2 : ℕ) = 16 from rfl]
  rw [getD_replicate_lt _ _ _ _ (by norm_num), getD_replicate_lt _ _ _ _ (by norm_num)]
  rw [show ((t : ℚ) + t) / 2 = (t : ℚ) by ring]
  exact Int.floor_natCast t

/-- C4: for every successful eye scan, each of the four unobservable bits
32..35 is assigned exactly the integer median (sort, average the middle two,
truncate) of the 32 observable taps.  In the active code `numpy.median` is in
fact taken over all 36 entries of `cal_steps` (four of them still zero), and
no truncation happens (the array is float64); but since the aliased timeline
forces all 32 observable taps to be one common value `t`, both medians are
exactly `t` and the claim holds on every reachable run. -/
theorem c4_unobservable_bits_get_integer_median
    (cal : Nat → Bool) (c : Nat) (steps : List ℚ)
    (h : findInDelaysAt cal c = .ok steps) :
    steps.getD 32 0 = ((specMedianTrunc (steps.take 32) : ℤ) : ℚ) ∧
    steps.getD 33 0 = ((specMedianTrunc (steps.take 32) : ℤ) : ℚ) ∧
    steps.getD 34 0 = ((specMedianTrunc (steps.take 32) : ℤ) : ℚ) ∧
    steps.getD 35 0 = ((specMedianTrunc (steps.take 32) : ℤ) : ℚ) := by
  rw [findInDelays_ok] at h
  have hs : okSteps cal c = steps := by injection h
  subst hs
  rw [okSteps]
  generalize ((findCalArea (scanTimeline cal c)).2.1 +
      (findCalArea (scanTimeline cal c)).2.2) / 2 = t
  have hA : (List.range 32).map (fun _bit => ((t : ℕ) : ℚ)) =
      List.replicate 32 ((t : ℕ) : ℚ) := by simp
  have hz : ([0, 0, 0, 0] : List ℚ) = List.replicate 4 0 := rfl
  rw [hA, hz]
  have hB : (List.range 4).map
        (fun _bit => npMedian (List.replicate 32 ((t : ℕ) : ℚ) ++ List.replicate 4 0)) =
      List.replicate 4 ((t : ℕ) : ℚ) := by
    rw [npMedian_rep]; simp
  rw [hB]
  have htake : (List.replicate 32 ((t : ℕ) : ℚ) ++
      List.replicate 4 ((t : ℕ) : ℚ)).take 32 = List.replicate 32 ((t : ℕ) : ℚ) :=
    List.take_left' (by simp)
  rw [htake, specMedianTrunc_rep]
  have hget : ∀ k : Nat, k < 4 →
      (List.replicate 32 ((t : ℕ) : ℚ) ++ List.replicate 4 ((t : ℕ) : ℚ)).getD (32 + k) 0 =
        ((t : ℕ) : ℚ) := by
    intro k hk
    rw [List.getD_append_right _ _ _ _ (by simp)]
    simp only [List.length_replicate]
    rw [show 32 + k - 32 = k from by omega]
    exact getD_replicate_lt _ _ _ _ hk
  refine ⟨?_, ?_, ?_, ?_⟩
  · rw [show (32 : ℕ) = 32 + 0 from rfl, hget 0 (by norm_num)]; push_cast; ring
  · rw [show (33 : ℕ) = 32 + 1 from rfl, hget 1 (by norm_num)]; push_cast; ring
  · rw [show (34 : ℕ) = 32 + 2 from rfl, hget 2 (by norm_num)]; push_cast; ring
  · rw [show (35 : ℕ) = 32 + 3 from rfl, hget 3 (by norm_num)]; push_cast; ring

/-- Witness for C4 at a concrete run: the all-fail oracle, whose scan
succeeds. -/
theorem c4_witness :
    findInDelaysAt allFalseOracle 0 = .ok (okSteps allFalseOracle 0) ∧
    ((okSteps allFalseOracle 0).getD 32 0 =
        ((specMedianTrunc ((okSteps allFalseOracle 0).take 32) : ℤ) : ℚ) ∧
      (okSteps allFalseOracle 0).getD 33 0 =
        ((specMedianTrunc ((okSteps allFalseOracle 0).take 32) : ℤ) : ℚ) ∧
      (okSteps allFalseOracle 0).getD 34 0 =
        ((specMedianTrunc ((okSteps allFalseOracle 0).take 32) : ℤ) : ℚ) ∧
      (okSteps allFalseOracle 0).getD 35 0 =
        ((specMedianTrunc ((okSteps allFalseOracle 0).take 32) : ℤ) : ℚ)) :=
  ⟨findInDelays_ok allFalseOracle 0,
   c4_unobservable_bits_get_integer_median allFalseOracle 0 (okSteps allFalseOracle 0)
     (findInDelays_ok allFalseOracle 0)⟩

theorem kadaneRunFrom_nil (s : KState) (i : Nat) : kadaneRunFrom s i [] = s := rfl

theorem findCalArea_end_cons (a0 : Int) (rest : List Int) :
    (findCalArea (a0 :: rest)).2.2 =
      (kadaneRunFrom ⟨a0, a0, 0, 0, 0⟩ 0 (a0 :: rest)).endIndex := rfl

theorem mehAt_cons (a0 : Int) (rest : List Int) (j : Nat) :
    mehAt (a0 :: rest) j =
      (kadaneRunFrom ⟨a0, a0, 0, 0, 0⟩ 0 ((a0 :: rest).take (j + 1))).maxEndingHere := rfl

/-- Either the greater-or-equal test of `_find_cal_area` fired at index `i`
(and `end_index` became `i`), or it did not (and `max_ending_here` is strictly
below `max_so_far` after the iteration). -/
theorem kadaneStep_update_or_not (s : KState) (i : Nat) (a : Int) :
    (kadaneStep s i a).endIndex = i ∨
    (kadaneStep s i a).maxEndingHere < (kadaneStep s i a).maxSoFar := by
  by_cases h : s.maxEndingHere < 0 <;>
    simp only [kadaneStep, h, if_true, if_false] <;> split <;> simp_all

theorem kadaneStep_end_ge (s : KState) (i : Nat) (a : Int) (h : s.endIndex ≤ i) :
    s.endIndex ≤ (kadaneStep s i a).endIndex := by
  by_cases hm : s.maxEndingHere < 0 <;>
    simp only [kadaneStep, hm, if_true, if_false] <;> split <;> simp_all

theorem kadaneStep_end_le (s : KState) (i : Nat) (a : Int) (h : s.endIndex ≤ i) :
    (kadaneStep s i a).endIndex ≤ i := by
  by_cases hm : s.maxEndingHere < 0 <;>
    simp only [kadaneStep, hm, if_true, if_false] <;> split <;> simp_all

theorem end_mono (l : List Int) : ∀ (s : KState) (i0 : Nat), s.endIndex ≤ i0 →
    s.endIndex ≤ (kadaneRunFrom s i0 l).endIndex := by
  induction l with
  | nil => intro s i0 _; exact le_refl _
  | cons a rest ih =>
    intro s i0 h
    rw [kadaneRunFrom_cons]
    exact le_trans (kadaneStep_end_ge s i0 a h)
      (ih (kadaneStep s i0 a) (i0 + 1)
        (le_trans (kadaneStep_end_le s i0 a h) (Nat.le_succ i0)))

/-- After the final iteration that set `end_index`, the running
`max_ending_here` never again reaches the final `max_so_far`: the
greater-or-equal update makes the recorded `end_index` the LAST index at
which the running maximum is attained. -/
theorem kadane_latest (l : List Int) : ∀ (s : KState) (i0 j : Nat),
    s.endIndex ≤ i0 → i0 ≤ j → j < i0 + l.length →
    (kadaneRunFrom s i0 l).endIndex < j →
    (kadaneRunFrom s i0 (l.take (j + 1 - i0))).maxEndingHere <
      (kadaneRunFrom s i0 l).maxSoFar := by
  induction l with
  | nil => intro s i0 j _ hij hlen _; simp at hlen; omega
  | cons a rest ih =>
    intro s i0 j hs hij hlen hend
    rw [kadaneRunFrom_cons] at hend
    by_cases hj : j = i0
    · subst hj
      rw [show j + 1 - j = 1 from by omega, show (a :: rest).take 1 = [a] from rfl,
        kadaneRunFrom_cons, kadaneRunFrom_nil]
      rcases kadaneStep_update_or_not s j a with hupd | hno
      · exfalso
        have h1 : (kadaneStep s j a).endIndex ≤
            (kadaneRunFrom (kadaneStep s j a) (j + 1) rest).endIndex :=
          end_mono rest _ (j + 1) (by omega)
        omega
      · rw [kadaneRunFrom_cons]
        exact lt_of_lt_of_le hno (msf_mono rest _ (j + 1))
    · have hij1 : i0 + 1 ≤ j := by omega
      have htake : (a :: rest).take (j + 1 - i0) = a :: rest.take (j - i0) := by
        rw [show j + 1 - i0 = (j - i0) + 1 from by omega]
        rfl
      rw [htake, kadaneRunFrom_cons, kadaneRunFrom_cons,
        show j - i0 = j + 1 - (i0 + 1) from by omega]
      exact ih (kadaneStep s i0 a) (i0 + 1) j
        (le_trans (kadaneStep_end_le s i0 a hs) (Nat.le_succ i0)) hij1
        (by simp at hlen ⊢; omega) hend

/-- The sum of the contiguous segment of `area` from index `b` through index
`e` inclusive. -/
def segSum (area : List Int) (b e : Nat) : Int := ((area.take (e + 1)).drop b).sum

/-- C5 (amended claim): for the timeline actually fed to `_find_cal_area`,
the tap chosen for every observable bit is `floor((begin + end) / 2)` of the
`(sum, begin, end)` triple computed by the greater-or-equal Kadane variant;
and because the update fires on ties, the recorded `end` is the LAST index at
which the running maximum attains the final maximum -- later ties overwrite
the recorded run, so the earliest tying run is NOT the one kept. -/
theorem c5_tap_midpoint_latest_tie
    (cal : Nat → Bool) (c : Nat) (steps : List ℚ) (bit : Nat)
    (hbit : bit < 32) (h : findInDelaysAt cal c = .ok steps) :
    steps.getD bit 0 =
      ((((findCalArea (scanTimeline cal c)).2.1 +
          (findCalArea (scanTimeline cal c)).2.2) / 2 : ℕ) : ℚ) ∧
    ∀ j, (findCalArea (scanTimeline cal c)).2.2 < j →
      j < (scanTimeline cal c).length →
      mehAt (scanTimeline cal c) j < (findCalArea (scanTimeline cal c)).1 := by
  constructor
  · rw [findInDelays_ok] at h
    have hs : okSteps cal c = steps := by injection h
    subst hs
    rw [okSteps]
    generalize ((findCalArea (scanTimeline cal c)).2.1 +
        (findCalArea (scanTimeline cal c)).2.2) / 2 = t
    rw [List.getD_append _ _ _ _ (by simpa using hbit)]
    have hA : (List.range 32).map (fun _bit => ((t : ℕ) : ℚ)) =
        List.replicate 32 ((t : ℕ) : ℚ) := by simp
    rw [hA]
    exact getD_replicate_lt _ _ _ _ hbit
  · intro j hj hlen
    rcases hT : scanTimeline cal c with _ | ⟨a0, rest⟩
    · rw [hT] at hlen
      simp at hlen
    · rw [hT] at hj hlen
      rw [mehAt_cons, findCalArea_fst_cons]
      rw [findCalArea_end_cons] at hj
      have := kadane_latest (a0 :: rest) ⟨a0, a0, 0, 0, 0⟩ 0 j (by simp)
        (Nat.zero_le j) (by simpa using hlen) hj
      rwa [Nat.sub_zero] at this

/-- Witness for C5 at the all-fail oracle. -/
theorem c5_witness :
    (0 < 32 ∧ findInDelaysAt allFalseOracle 0 = .ok (okSteps allFalseOracle 0)) ∧
    ((okSteps allFalseOracle 0).getD 0 0 =
      ((((findCalArea (scanTimeline allFalseOracle 0)).2.1 +
          (findCalArea (scanTimeline allFalseOracle 0)).2.2) / 2 : ℕ) : ℚ) ∧
    ∀ j, (findCalArea (scanTimeline allFalseOracle 0)).2.2 < j →
      j < (scanTimeline allFalseOracle 0).length →
      mehAt (scanTimeline allFalseOracle 0) j <
        (findCalArea (scanTimeline allFalseOracle 0)).1) :=
  ⟨⟨by norm_num, findInDelays_ok allFalseOracle 0⟩,
   c5_tap_midpoint_latest_tie allFalseOracle 0 (okSteps allFalseOracle 0) 0
     (by norm_num) (findInDelays_ok allFalseOracle 0)⟩

/-- C5 (counterexample to the "earliest run" tie-break as claimed): on the
timeline `[-1, 1, 1, -1, -1, 1, 1]` the maximum segment sum is 2, first
attained by the run from index 1 through 2, and also by the later run from
index 5 through 6; the source's greater-or-equal Kadane keeps
`(begin, end) = (1, 6)` -- the end index of the LAST tying position -- so the
midpoint tap is 3, not the midpoint 1 of the earliest maximal run. -/
theorem c5_earliest_run_not_selected :
    findCalArea [-1, 1, 1, -1, -1, 1, 1] = (2, 1, 6) ∧
    segSum [-1, 1, 1, -1, -1, 1, 1] 1 2 = 2 ∧
    segSum [-1, 1, 1, -1, -1, 1, 1] 5 6 = 2 ∧
    ((List.range 7).all (fun b =>
      (List.range 7).all (fun e =>
        decide (segSum [-1, 1, 1, -1, -1, 1, 1] b e ≤ 2)))) = true ∧
    ((1 + 6) / 2 : ℕ) = 3 ∧ ((1 + 2) / 2 : ℕ) = 1 ∧ (3 : ℕ) ≠ 1 := by
  refine ⟨by decide, by decide, by decide, by decide, by decide, by decide, by decide⟩

/-- A blind write to the QDR control register: (word offset, 32-bit value). -/
abbrev CtrlWrite : Type := Nat × Nat

/-- `Qdr.reset`: writes 1 then 0 to word offset 0. -/
def resetWrites : List CtrlWrite := [(0, 1), (0, 0)]

/-- `Qdr._delay_step(bitmask, step, offset, offset_mask)` as its sequence of
control-register writes: no writes when `step == 0`, otherwise the direction
latch at offset 7 (all-ones for positive, zero for negative) followed by
`abs(step)` pulses of four writes each: clear data, clear strobe, set data
(low 32 bits of the bitmask), set strobe (`offset_mask`). -/
def delayStepWrites (bitmask : Nat) (step : Int) (offset : Nat) (offsetMask : Nat) :
    List CtrlWrite :=
  if step = 0 then []
  else
    (if 0 < step then [(7, 0xffffffff)] else [(7, 0)]) ++
      ((List.range step.natAbs).map (fun _ =>
        ([(offset, 0), (5, 0), (offset, 0xffffffff &&& bitmask), (5, offsetMask)] :
          List CtrlWrite))).flatten

/-- `Qdr._delay_out_step`: offset 6, strobe nibble 1. -/
def delayOutStepWrites (bitmask : Nat) (step : Int) : List CtrlWrite :=
  delayStepWrites bitmask step 6 ((0xf &&& (bitmask >>> 32)) <<< 4)

/-- `Qdr._delay_in_step`: offset 4, strobe nibble 0. -/
def delayInStepWrites (bitmask : Nat) (step : Int) : List CtrlWrite :=
  delayStepWrites bitmask step 4 (0xf &&& (bitmask >>> 32))

/-- `Qdr._delay_clk_step`: no writes when `step == 0`, else the direction
latch followed by `abs(step)` pulses of TWO writes each (clear then set bit 8
at offset 5). -/
def delayClkStepWrites (step : Int) : List CtrlWrite :=
  if step = 0 then []
  else
    (if 0 < step then [(7, 0xffffffff)] else [(7, 0)]) ++
      ((List.range step.natAbs).map (fun _ =>
        ([(5, 0), (5, 1 <<< 8)] : List CtrlWrite))).flatten

theorem length_flatten_const {α : Type} (n k : Nat) (l : List α) (hl : l.length = k) :
    (((List.range n).map (fun _ => l)).flatten).length = n * k := by
  induction n with
  | zero => simp
  | succ m ih =>
    rw [List.range_succ, List.map_append, List.flatten_append, List.length_append, ih]
    simp [hl]
    ring

/-- C8 (amended claim): for any mask and any `s > 0`, `delay_in_step` and
`delay_out_step` each issue exactly `1 + 4*s` control-register writes, while
`delay_clk_step` issues `1 + 2*s` (its pulse is two writes, both to offset 5);
all three issue zero writes when `s == 0`. -/
theorem c8_write_counts (m : Nat) (s : Int) (hs : 0 < s) :
    (delayInStepWrites m s).length = 1 + 4 * s.toNat ∧
    (delayOutStepWrites m s).length = 1 + 4 * s.toNat ∧
    (delayClkStepWrites s).length = 1 + 2 * s.toNat ∧
    (delayInStepWrites m 0).length = 0 ∧
    (delayOutStepWrites m 0).length = 0 ∧
    (delayClkStepWrites 0).length = 0 := by
  have hns : ¬ s = 0 := by omega
  have habs : s.natAbs = s.toNat := by omega
  refine ⟨?_, ?_, ?_, by simp [delayInStepWrites, delayStepWrites],
    by simp [delayOutStepWrites, delayStepWrites], by simp [delayClkStepWrites]⟩
  · rw [delayInStepWrites, delayStepWrites, if_neg hns, if_pos hs, List.length_append,
      length_flatten_const _ 4 _ (by rfl), habs]
    simp [Nat.mul_comm]
  · rw [delayOutStepWrites, delayStepWrites, if_neg hns, if_pos hs, List.length_append,
      length_flatten_const _ 4 _ (by rfl), habs]
    simp [Nat.mul_comm]
  · rw [delayClkStepWrites, if_neg hns, if_pos hs, List.length_append,
      length_flatten_const _ 2 _ (by rfl), habs]
    simp [Nat.mul_comm]

/-- Witness for C8 at mask 5, step 2. -/
theorem c8_witness :
    (0 : Int) < 2 ∧
    ((delayInStepWrites 5 2).length = 1 + 4 * (2 : Int).toNat ∧
      (delayOutStepWrites 5 2).length = 1 + 4 * (2 : Int).toNat ∧
      (delayClkStepWrites 2).length = 1 + 2 * (2 : Int).toNat ∧
      (delayInStepWrites 5 0).length = 0 ∧
      (delayOutStepWrites 5 0).length = 0 ∧
      (delayClkStepWrites 0).length = 0) :=
  ⟨by norm_num, c8_write_counts 5 2 (by norm_num)⟩

/-- C8 (counterexample to the claim as stated): a single clock step issues
3 writes (one latch plus one two-write pulse), not `1 + 4*1 = 5`. -/
theorem c8_clk_step_three_writes :
    (delayClkStepWrites 1).length = 3 ∧ (3 : Nat) ≠ 1 + 4 * 1 := by
  refine ⟨by decide, by decide⟩

/-- Python `max` over a delay list (the source's floats modelled as `Rat`). -/
def pyMax (l : List ℚ) : ℚ := l.foldl max (l.headD 0)

/-- `int(max(delays))`: truncation of the (nonnegative) maximum. -/
def pyIntMax (l : List ℚ) : Nat := (⌊pyMax l⌋).toNat

/-- One per-step 36-bit mask of `_apply_cals`:
`mask += (1 << bit if (step < delays[bit]) else 0)` over every bit. -/
def maskOf (d : List ℚ) (step : Nat) : Nat :=
  (List.range d.length).foldl
    (fun m bit => m + (if (step : ℚ) < d.getD bit 0 then 1 <<< bit else 0)) 0

/-- The masks stepped by one tap each in
`for step in range(int(max(delays)))` of `_apply_cals`. -/
def applyCalsMasks (d : List ℚ) : List Nat :=
  (List.range (pyIntMax d)).map (fun step => maskOf d step)

/-- The number of the per-step masks whose bit `b` is set: the total number
of single-tap pulses by which `_apply_cals` advances bit `b`. -/
def advanceOf (masks : List Nat) (b : Nat) : Nat :=
  masks.countP (fun m => m.testBit b)

/-- `Qdr._apply_cals` as its control-register write trace: reset, clock
stepping, then one single-tap `delay_in_step` per input mask and one
single-tap `delay_out_step` per output mask. -/
def applyCalsWrites (inD outD : List ℚ) (clk : Int) : List CtrlWrite :=
  resetWrites ++ delayClkStepWrites clk ++
    ((applyCalsMasks inD).map (fun m => delayInStepWrites m 1)).flatten ++
    ((applyCalsMasks outD).map (fun m => delayOutStepWrites m 1)).flatten

theorem testBit_add_pow_lt {a k b : Nat} (hb : b < k) :
    (a + 2 ^ k).testBit b = a.testBit b := by
  rw [Nat.testBit_to_div_mod, Nat.testBit_to_div_mod]
  rw [show 2 ^ k = 2 ^ (k - b - 1) * 2 * 2 ^ b from by
    rw [mul_assoc, ← pow_succ', ← pow_add]
    congr 1
    omega]
  rw [Nat.add_mul_div_right _ _ (Nat.pos_pow_of_pos b (by norm_num)),
    Nat.add_mul_mod_self_right]

theorem testBit_add_pow_eq {a k : Nat} (ha : a < 2 ^ k) :
    (a + 2 ^ k).testBit k = true := by
  rw [Nat.testBit_to_div_mod]
  rw [show a + 2 ^ k = a + 1 * 2 ^ k from by ring]
  rw [Nat.add_mul_div_right _ _ (Nat.pos_pow_of_pos k (by norm_num)),
    Nat.div_eq_of_lt ha]
  norm_num

/-- The mask built by `_apply_cals` has bit `b` set exactly when
`step < delays[b]`. -/
theorem maskOf_testBit (d : List ℚ) (step b : Nat) (hb : b < d.length) :
    (maskOf d step).testBit b = decide ((step : ℚ) < d.getD b 0) := by
  suffices h : ∀ k, k ≤ d.length →
      ((List.range k).foldl
        (fun m bit => m + (if (step : ℚ) < d.getD bit 0 then 1 <<< bit else 0)) 0) < 2 ^ k ∧
      ∀ j, j < k →
        (((List.range k).foldl
          (fun m bit => m + (if (step : ℚ) < d.getD bit 0 then 1 <<< bit else 0)) 0)).testBit j =
          decide ((step : ℚ) < d.getD j 0) by
    exact (h d.length (le_refl _)).2 b hb
  intro k
  induction k with
  | zero => intro _; refine ⟨by norm_num, ?_⟩; intro j hj; omega
  | succ n ih =>
    intro hk
    have hn := ih (by omega)
    rw [List.range_succ, List.foldl_append]
    set M := (List.range n).foldl
      (fun m bit => m + (if (step : ℚ) < d.getD bit 0 then 1 <<< bit else 0)) 0 with hM
    have hshift : (1 : Nat) <<< n = 2 ^ n := by
      rw [Nat.shiftLeft_eq, one_mul]
    constructor
    · simp only [List.foldl_cons, List.foldl_nil]
      split
      · rw [hshift, pow_succ]
        omega
      · have := hn.1
        have h2 : (2 : Nat) ^ n ≤ 2 ^ (n + 1) := Nat.pow_le_pow_right (by norm_num) (by omega)
        omega
    · intro j hj
      simp only [List.foldl_cons, List.foldl_nil]
      by_cases hcond : (step : ℚ) < d.getD n 0
      · rw [if_pos hcond, hshift]
        rcases Nat.lt_succ_iff_lt_or_eq.mp hj with hjn | hjn
        · rw [testBit_add_pow_lt hjn]
          exact hn.2 j hjn
        · subst hjn
          rw [testBit_add_pow_eq hn.1]
          simpa [List.getD] using hcond
      · rw [if_neg hcond, Nat.add_zero]
        rcases Nat.lt_succ_iff_lt_or_eq.mp hj with hjn | hjn
        · exact hn.2 j hjn
        · subst hjn
          rw [Nat.testBit_lt_two_pow hn.1]
          simpa [List.getD] using hcond

/-- Python `max` over a list of ints (`natMaxOf` mirrors `pyMax` on the nat
lists that arise, starting the fold at the head). -/
def natMaxOf (l : List ℕ) : ℕ := l.foldl max (l.headD 0)

theorem foldl_max_cast (d : List ℕ) : ∀ a : ℕ,
    (d.map (fun x => ((x : ℕ) : ℚ))).foldl max ((a : ℕ) : ℚ) = ((d.foldl max a : ℕ) : ℚ) := by
  induction d with
  | nil => intro a; simp
  | cons x rest ih =>
    intro a
    simp only [List.map_cons, List.foldl_cons]
    rw [← Nat.cast_max, ih]

theorem pyIntMax_cast (d : List ℕ) :
    pyIntMax (d.map (fun x => ((x : ℕ) : ℚ))) = natMaxOf d := by
  rw [pyIntMax, pyMax, natMaxOf]
  have hh : (d.map (fun x => ((x : ℕ) : ℚ))).headD 0 = ((d.headD 0 : ℕ) : ℚ) := by
    cases d <;> simp
  rw [hh, foldl_max_cast, Int.floor_natCast, Int.toNat_natCast]

theorem le_foldl_max (d : List ℕ) : ∀ a : ℕ,
    a ≤ d.foldl max a ∧ ∀ x ∈ d, x ≤ d.foldl max a := by
  induction d with
  | nil => intro a; exact ⟨le_refl _, by simp⟩
  | cons y rest ih =>
    intro a
    simp only [List.foldl_cons]
    obtain ⟨h1, h2⟩ := ih (max a y)
    refine ⟨le_trans (le_max_left a y) h1, ?_⟩
    intro x hx
    rcases List.mem_cons.mp hx with rfl | hx
    · exact le_trans (le_max_right a x) h1
    · exact h2 x hx

theorem mem_le_natMaxOf (d : List ℕ) (x : ℕ) (hx : x ∈ d) : x ≤ natMaxOf d :=
  (le_foldl_max d (d.headD 0)).2 x hx

theorem countP_range_lt (n M : ℕ) :
    (List.range M).countP (fun s => decide (s < n)) = min n M := by
  induction M with
  | zero => simp
  | succ m ih =>
    rw [List.range_succ, List.countP_append, ih]
    by_cases h : m < n
    · simp [List.countP_cons, h]
      omega
    · simp [List.countP_cons, h]
      omega

theorem getD_map_cast (d : List ℕ) (b : ℕ) (hb : b < d.length) :
    (d.map (fun x => ((x : ℕ) : ℚ))).getD b 0 = ((d.getD b 0 : ℕ) : ℚ) := by
  rw [List.getD_eq_getElem _ _ (by simpa using hb), List.getD_eq_getElem _ _ hb]
  simp

/-- Each bit `b` is a member of exactly `delays[b]` of the per-step masks of
`_apply_cals` (for integer delay vectors). -/
theorem advance_eq (d : List ℕ) (b : ℕ) (hb : b < d.length) :
    advanceOf (applyCalsMasks (d.map (fun x => ((x : ℕ) : ℚ)))) b = d.getD b 0 := by
  rw [advanceOf, applyCalsMasks, List.countP_map, pyIntMax_cast]
  have hcongr : ∀ s ∈ List.range (natMaxOf d),
      ((fun m => m.testBit b) ∘ (fun step => maskOf (d.map (fun x => ((x : ℕ) : ℚ))) step)) s = true ↔
        (fun s => decide (s < d.getD b 0)) s = true := by
    intro s _
    simp only [Function.comp]
    rw [maskOf_testBit _ _ _ (by simpa using hb), getD_map_cast d b hb]
    simp [Nat.cast_lt]
  rw [List.countP_congr hcongr, countP_range_lt]
  have hmem : d.getD b 0 ∈ d := by
    rw [List.getD_eq_getElem _ _ hb]
    exact List.getElem_mem hb
  have := mem_le_natMaxOf d _ hmem
  omega

/-- C7: for any pair of 36-element integer delay vectors with values in
[0, 31], `_apply_cals` iterates `step` over `0 .. max(delays) - 1`, each step
pulsing by one tap exactly the bits whose delay is strictly greater than
`step`; so every bit `b` is advanced by exactly `delays[b]` taps, for the
input and the output delays alike. -/
theorem c7_apply_cals_advances_each_bit_exactly
    (dIn dOut : List ℕ) (b : ℕ)
    (hlin : dIn.length = 36) (hlout : dOut.length = 36)
    (_hvin : ∀ x ∈ dIn, x ≤ 31) (_hvout : ∀ x ∈ dOut, x ≤ 31) (hb : b < 36) :
    (applyCalsMasks (dIn.map (fun x => ((x : ℕ) : ℚ)))).length = natMaxOf dIn ∧
    (∀ step : ℕ, step < natMaxOf dIn →
      (maskOf (dIn.map (fun x => ((x : ℕ) : ℚ))) step).testBit b =
        decide (step < dIn.getD b 0)) ∧
    advanceOf (applyCalsMasks (dIn.map (fun x => ((x : ℕ) : ℚ)))) b = dIn.getD b 0 ∧
    advanceOf (applyCalsMasks (dOut.map (fun x => ((x : ℕ) : ℚ)))) b = dOut.getD b 0 := by
  refine ⟨?_, ?_, ?_, ?_⟩
  · rw [applyCalsMasks, pyIntMax_cast]
    simp
  · intro step _
    rw [maskOf_testBit _ _ _ (by simp [hlin]; omega), getD_map_cast dIn b (by omega)]
    simp [Nat.cast_lt]
  · exact advance_eq dIn b (by omega)
  · exact advance_eq dOut b (by omega)

/-- Witness for C7 at concrete delay vectors. -/
theorem c7_witness :
    ((List.replicate 36 3 : List ℕ).length = 36 ∧
      (List.replicate 36 2 : List ℕ).length = 36 ∧
      (∀ x ∈ (List.replicate 36 3 : List ℕ), x ≤ 31) ∧
      (∀ x ∈ (List.replicate 36 2 : List ℕ), x ≤ 31) ∧ (7 : ℕ) < 36) ∧
    ((applyCalsMasks ((List.replicate 36 3 : List ℕ).map (fun x => ((x : ℕ) : ℚ)))).length =
        natMaxOf (List.replicate 36 3) ∧
      (∀ step : ℕ, step < natMaxOf (List.replicate 36 3) →
        (maskOf ((List.replicate 36 3 : List ℕ).map (fun x => ((x : ℕ) : ℚ))) step).testBit 7 =
          decide (step < (List.replicate 36 3 : List ℕ).getD 7 0)) ∧
      advanceOf (applyCalsMasks ((List.replicate 36 3 : List ℕ).map (fun x => ((x : ℕ) : ℚ)))) 7 =
        (List.replicate 36 3 : List ℕ).getD 7 0 ∧
      advanceOf (applyCalsMasks ((List.replicate 36 2 : List ℕ).map (fun x => ((x : ℕ) : ℚ)))) 7 =
        (List.replicate 36 2 : List ℕ).getD 7 0) :=
  ⟨⟨by decide, by decide, by decide, by decide, by decide⟩,
   c7_apply_cals_advances_each_bit_exactly (List.replicate 36 3) (List.replicate 36 2) 7
     (by decide) (by decide) (by decide) (by decide) (by decide)⟩

/-- The consistency test of `_delay_clk_get` on a raw offset-8 readback: the
low 5 bits must equal the duplicated counter at bits 5..9. -/
def clkConsistent (raw : Nat) : Bool := (raw &&& 0x1f) == ((raw &&& (0x1f <<< 5)) >>> 5)

/-- `Qdr._delay_clk_get` on the raw value read from word offset 8: raises the
hardware-inconsistency error when the duplicated counters disagree, else
returns the low 5-bit counter. -/
def delayClkGet (raw : Nat) : Except QdrError Nat :=
  if clkConsistent raw then .ok (raw &&& 0x1f) else .error .hardwareInconsistent

/-- The outcome of one `Qdr.calibrate` call: its result, the number of outer
`while` iterations executed, and the control-register write trace.
(`_cal_check` touches only the memory window, never the control register, so
it contributes no entries to the trace.) -/
structure CalRun where
  result : Except QdrError Unit
  iters : Nat
  ctrlWrites : List CtrlWrite

/-- The control-register writes of the 32-step eye-scan loop: one single-tap
`delay_in_step` of the full 36-bit mask `0xfffffffff` per step. -/
def scanWrites : List CtrlWrite :=
  ((List.range 32).map (fun _ => delayInStepWrites 0xfffffffff 1)).flatten

/-- The outer `while (not calibrated) and (out_step < 32)` loop of
`Qdr.calibrate`, with `fuel = 32 - out_step` remaining iterations; `c` is the
index of the next `_cal_check` call and `g` the index of the next offset-8
read.  Each iteration: `reset()`, the eye scan (32 checks), `_apply_cals`
with `out_delays = [out_step] * 36` and `clk_delay = out_step`, the
post-apply `_cal_check`, and the `_delay_clk_get()` embedded in the
debug-log call (executed unconditionally, and able to raise).  When the loop
exits -- early or exhausted -- `calibrate` performs ONE MORE `_cal_check` and
returns normally iff it passes, else raises `calibrationFailed`. -/
def calibrateLoop (cal : Nat → Bool) (clk : Nat → Nat) :
    Nat → Nat → Nat → Nat → CalRun
  | 0, _outStep, c, _g =>
    ⟨if cal c then .ok () else .error .calibrationFailed, 0, []⟩
  | fuel + 1, outStep, c, g =>
    match findInDelaysAt cal c with
    | .error e => ⟨.error e, 1, resetWrites ++ scanWrites⟩
    | .ok inD =>
      let ws := resetWrites ++ scanWrites ++
        applyCalsWrites inD (List.replicate 36 ((outStep : ℕ) : ℚ)) (outStep : Int)
      if clkConsistent (clk g) then
        if cal (c + 32) then
          ⟨if cal (c + 33) then .ok () else .error .calibrationFailed, 1, ws⟩
        else
          let r := calibrateLoop cal clk fuel (outStep + 1) (c + 33) (g + 1)
          ⟨r.result, r.iters + 1, ws ++ r.ctrlWrites⟩
      else ⟨.error .hardwareInconsistent, 1, ws⟩

/-- `Qdr.calibrate`: return immediately when the initial `_cal_check`
passes (issuing no control-register writes at all), else run the outer loop
from `out_step = 0` with the 32-iteration budget. -/
def qdrCalibrate (cal : Nat → Bool) (clk : Nat → Nat) : CalRun :=
  if cal 0 then ⟨.ok (), 0, []⟩ else calibrateLoop cal clk 32 0 1 0

theorem calibrateLoop_clk_bad (cal : Nat → Bool) (clk : Nat → Nat)
    (fuel outStep c g : Nat) (hclk : clkConsistent (clk g) = false) :
    (calibrateLoop cal clk (fuel + 1) outStep c g).result = .error .hardwareInconsistent ∧
    (calibrateLoop cal clk (fuel + 1) outStep c g).iters = 1 := by
  rw [calibrateLoop, findInDelays_ok]
  simp [hclk]

theorem calibrateLoop_exit_pass (cal : Nat → Bool) (clk : Nat → Nat)
    (fuel outStep c g : Nat) (hclk : clkConsistent (clk g) = true)
    (h32 : cal (c + 32) = true) :
    (calibrateLoop cal clk (fuel + 1) outStep c g).result =
      (if cal (c + 33) then Except.ok () else .error .calibrationFailed) ∧
    (calibrateLoop cal clk (fuel + 1) outStep c g).iters = 1 := by
  rw [calibrateLoop, findInDelays_ok]
  simp [hclk, h32]

theorem calibrateLoop_continue (cal : Nat → Bool) (clk : Nat → Nat)
    (fuel outStep c g : Nat) (hclk : clkConsistent (clk g) = true)
    (h32 : cal (c + 32) = false) :
    (calibrateLoop cal clk (fuel + 1) outStep c g).result =
      (calibrateLoop cal clk fuel (outStep + 1) (c + 33) (g + 1)).result ∧
    (calibrateLoop cal clk (fuel + 1) outStep c g).iters =
      (calibrateLoop cal clk fuel (outStep + 1) (c + 33) (g + 1)).iters + 1 := by
  rw [calibrateLoop, findInDelays_ok]
  simp [hclk, h32]

theorem calibrateLoop_zero (cal : Nat → Bool) (clk : Nat → Nat) (outStep c g : Nat) :
    (calibrateLoop cal clk 0 outStep c g).result =
      (if cal c then Except.ok () else .error .calibrationFailed) ∧
    (calibrateLoop cal clk 0 outStep c g).iters = 0 := by
  rw [calibrateLoop]
  exact ⟨rfl, rfl⟩

/-- Full characterisation of the outer loop under a consistent clock
readback: at most `fuel` iterations run; every non-final iteration's
post-apply check failed; an early exit means the last iteration's post-apply
check passed; and the returned result is success exactly when the one
additional `_cal_check` performed after the loop passes. -/
theorem calibrateLoop_spec (cal : Nat → Bool) (clk : Nat → Nat)
    (hclk : ∀ g, clkConsistent (clk g) = true) :
    ∀ (fuel c g outStep : Nat),
      (calibrateLoop cal clk fuel outStep c g).iters ≤ fuel ∧
      (0 < fuel → 1 ≤ (calibrateLoop cal clk fuel outStep c g).iters) ∧
      (∀ j, j + 1 < (calibrateLoop cal clk fuel outStep c g).iters →
        cal (c + 33 * j + 32) = false) ∧
      ((calibrateLoop cal clk fuel outStep c g).iters < fuel →
        cal (c + 33 * ((calibrateLoop cal clk fuel outStep c g).iters - 1) + 32) = true) ∧
      ((calibrateLoop cal clk fuel outStep c g).result = .ok () ↔
        cal (c + 33 * (calibrateLoop cal clk fuel outStep c g).iters) = true) ∧
      ((calibrateLoop cal clk fuel outStep c g).result = .ok () ∨
        (calibrateLoop cal clk fuel outStep c g).result = .error .calibrationFailed) := by
  intro fuel
  induction fuel with
  | zero =>
    intro c g outStep
    obtain ⟨hres, hit⟩ := calibrateLoop_zero cal clk outStep c g
    rw [hres, hit]
    refine ⟨le_refl _, by omega, by omega, by omega, ?_, ?_⟩
    · rw [Nat.mul_zero, Nat.add_zero]
      cases h : cal c <;> simp [h]
    · cases h : cal c <;> simp [h]
  | succ fuel ih =>
    intro c g outStep
    by_cases h32 : cal (c + 32) = true
    · obtain ⟨hres, hit⟩ := calibrateLoop_exit_pass cal clk fuel outStep c g (hclk g) h32
      rw [hres, hit]
      refine ⟨by omega, by omega, by omega, ?_, ?_, ?_⟩
      · intro _
        simpa using h32
      · rw [show c + 33 * 1 = c + 33 from by ring]
        cases h : cal (c + 33) <;> simp [h]
      · cases h : cal (c + 33) <;> simp [h]
    · rw [Bool.not_eq_true] at h32
      obtain ⟨hres, hit⟩ := calibrateLoop_continue cal clk fuel outStep c g (hclk g) h32
      rw [hres, hit]
      obtain ⟨ih1, ih2, ih3, ih4, ih5, ih6⟩ := ih (c + 33) (g + 1) (outStep + 1)
      refine ⟨by omega, by omega, ?_, ?_, ?_, ih6⟩
      · intro j hj
        cases j with
        | zero => simpa using h32
        | succ j =>
          rw [show c + 33 * (j + 1) + 32 = (c + 33) + 33 * j + 32 from by ring]
          exact ih3 j (by omega)
      · intro hlt
        have h1 : 1 ≤ (calibrateLoop cal clk fuel (outStep + 1) (c + 33) (g + 1)).iters :=
          ih2 (by omega)
        rw [show c + 33 * ((calibrateLoop cal clk fuel (outStep + 1) (c + 33) (g + 1)).iters
              + 1 - 1) + 32 =
            (c + 33) + 33 * ((calibrateLoop cal clk fuel (outStep + 1) (c + 33) (g + 1)).iters
              - 1) + 32 from by omega]
        exact ih4 (by omega)
      · rw [show c + 33 * ((calibrateLoop cal clk fuel (outStep + 1) (c + 33) (g + 1)).iters
            + 1) = (c + 33) + 33 *
              (calibrateLoop cal clk fuel (outStep + 1) (c + 33) (g + 1)).iters from by ring]
        exact ih5

/-- C6 (amended claim): when the initial check fails, `calibrate` runs at
most 32 outer iterations; every non-final iteration's post-apply `_cal_check`
(call index `33*(j+1)`) failed; an exit before the 32nd iteration means the
last iteration's post-apply check passed; but success or failure of the call
is decided by ONE MORE `_cal_check` performed after the loop (call index
`1 + 33*iters`): `calibrate` returns normally iff that final check passes,
and otherwise raises `CalibrationFailed` -- so a passing post-apply check
does not by itself produce success, and exhaustion does not by itself
produce failure. -/
theorem c6_outer_loop_characterization (cal : Nat → Bool) (clk : Nat → Nat)
    (h0 : cal 0 = false) (hclk : ∀ g, clkConsistent (clk g) = true) :
    (qdrCalibrate cal clk).iters ≤ 32 ∧
    (∀ j, j + 1 < (qdrCalibrate cal clk).iters → cal (33 * (j + 1)) = false) ∧
    ((qdrCalibrate cal clk).iters < 32 →
      cal (33 * (qdrCalibrate cal clk).iters) = true) ∧
    ((qdrCalibrate cal clk).result = .ok () ↔
      cal (1 + 33 * (qdrCalibrate cal clk).iters) = true) ∧
    ((qdrCalibrate cal clk).result = .ok () ∨
      (qdrCalibrate cal clk).result = .error .calibrationFailed) := by
  have hq : qdrCalibrate cal clk = calibrateLoop cal clk 32 0 1 0 := by
    rw [qdrCalibrate, h0]
    rfl
  rw [hq]
  obtain ⟨s1, s2, s3, s4, s5, s6⟩ := calibrateLoop_spec cal clk hclk 32 1 0 0
  refine ⟨s1, ?_, ?_, ?_, s6⟩
  · intro j hj
    have := s3 j hj
    rwa [show 1 + 33 * j + 32 = 33 * (j + 1) from by ring] at this
  · intro hlt
    have h1 : 1 ≤ (calibrateLoop cal clk 32 0 1 0).iters := s2 (by norm_num)
    have := s4 hlt
    rwa [show 1 + 33 * ((calibrateLoop cal clk 32 0 1 0).iters - 1) + 32 =
        33 * (calibrateLoop cal clk 32 0 1 0).iters from by omega] at this
  · exact s5

/-- Witness for C6: the all-fail oracle with a consistent clock readback. -/
theorem c6_witness :
    (allFalseOracle 0 = false ∧ ∀ g : Nat, clkConsistent ((fun _ : Nat => 0) g) = true) ∧
    ((qdrCalibrate allFalseOracle (fun _ : Nat => 0)).iters ≤ 32 ∧
      (∀ j, j + 1 < (qdrCalibrate allFalseOracle (fun _ : Nat => 0)).iters →
        allFalseOracle (33 * (j + 1)) = false) ∧
      ((qdrCalibrate allFalseOracle (fun _ : Nat => 0)).iters < 32 →
        allFalseOracle (33 * (qdrCalibrate allFalseOracle (fun _ : Nat => 0)).iters) = true) ∧
      ((qdrCalibrate allFalseOracle (fun _ : Nat => 0)).result = .ok () ↔
        allFalseOracle (1 + 33 * (qdrCalibrate allFalseOracle (fun _ : Nat => 0)).iters) = true) ∧
      ((qdrCalibrate allFalseOracle (fun _ : Nat => 0)).result = .ok () ∨
        (qdrCalibrate allFalseOracle (fun _ : Nat => 0)).result = .error .calibrationFailed)) :=
  ⟨⟨rfl, fun _ => (by decide : clkConsistent 0 = true)⟩,
   c6_outer_loop_characterization allFalseOracle (fun _ : Nat => 0) rfl
     (fun _ => (by decide : clkConsistent 0 = true))⟩

/-- The oracle whose only passing `_cal_check` is call index 33: the initial
check fails, the whole first eye scan fails, the first post-apply check
passes, and the final check after the loop fails again. -/
def passAt33 : Nat → Bool := fun i => i == 33

/-- C6 (counterexample to the claim as stated): the first iteration's
post-apply `_cal_check` passes, yet `calibrate` does NOT return success -- the
extra final check fails and it raises `CalibrationFailed` after one
iteration.  (The claim says it returns Ok as soon as a post-apply check
passes.) -/
theorem c6_post_apply_pass_can_still_fail :
    passAt33 33 = true ∧
    (qdrCalibrate passAt33 (fun _ : Nat => 0)).result = .error .calibrationFailed ∧
    (qdrCalibrate passAt33 (fun _ : Nat => 0)).iters = 1 := by
  have hq : qdrCalibrate passAt33 (fun _ : Nat => 0) =
      calibrateLoop passAt33 (fun _ : Nat => 0) 32 0 1 0 := by
    rw [qdrCalibrate, if_neg]
    intro hcontra
    simp [passAt33] at hcontra
  obtain ⟨hres, hit⟩ :=
    calibrateLoop_exit_pass passAt33 (fun _ : Nat => 0) 31 0 1 0 (by decide)
      (by decide)
  refine ⟨by decide, ?_, ?_⟩
  · rw [hq, show (32 : Nat) = 31 + 1 from rfl, hres,
      if_neg (show ¬ (passAt33 (1 + 33) = true) from by decide)]
  · rw [hq, show (32 : Nat) = 31 + 1 from rfl, hit]

/-- C9: if the very first `_cal_check` of a `calibrate` call passes, it
returns Ok immediately with zero outer iterations and an empty
control-register write trace -- no reset, no tap or clock stepping, so the
hardware tap state is untouched. -/
theorem c9_early_return_no_ctrl_writes (cal : Nat → Bool) (clk : Nat → Nat)
    (h : cal 0 = true) :
    (qdrCalibrate cal clk).result = .ok () ∧
    (qdrCalibrate cal clk).ctrlWrites = [] ∧
    (qdrCalibrate cal clk).iters = 0 := by
  rw [qdrCalibrate, h]
  exact ⟨rfl, rfl, rfl⟩

/-- Witness for C9: the all-pass oracle. -/
theorem c9_witness :
    (fun _ : Nat => true) 0 = true ∧
    ((qdrCalibrate (fun _ => true) (fun _ => 0)).result = .ok () ∧
      (qdrCalibrate (fun _ => true) (fun _ => 0)).ctrlWrites = [] ∧
      (qdrCalibrate (fun _ => true) (fun _ => 0)).iters = 0) :=
  ⟨rfl, c9_early_return_no_ctrl_writes (fun _ => true) (fun _ => 0) rfl⟩

/-- C10: every outer iteration of `calibrate` evaluates `_delay_clk_get()`
(it is an argument of the debug-log call, so Python evaluates it regardless
of log level); if the duplicated 5-bit counter of the offset-8 readback
disagrees with bits 0..4 on the first iteration, `calibrate` raises the
hardware-inconsistency error after that single iteration -- for EVERY
`_cal_check` oracle, including those whose pattern checks pass from the first
post-apply check onwards. -/
theorem c10_clk_get_inconsistency_raises (cal : Nat → Bool) (clk : Nat → Nat)
    (h0 : cal 0 = false) (hclk : clkConsistent (clk 0) = false) :
    delayClkGet (clk 0) = .error .hardwareInconsistent ∧
    (qdrCalibrate cal clk).result = .error .hardwareInconsistent ∧
    (qdrCalibrate cal clk).iters = 1 := by
  have hq : qdrCalibrate cal clk = calibrateLoop cal clk 32 0 1 0 := by
    rw [qdrCalibrate, h0]
    rfl
  obtain ⟨hres, hit⟩ := calibrateLoop_clk_bad cal clk 31 0 1 0 hclk
  refine ⟨?_, ?_, ?_⟩
  · rw [delayClkGet, hclk]
    rfl
  · rw [hq, show (32 : Nat) = 31 + 1 from rfl, hres]
  · rw [hq, show (32 : Nat) = 31 + 1 from rfl, hit]

/-- Witness for C10: all post-apply checks would pass (`cal i = true` for
every `i > 0`), yet the inconsistent readback value 32 (low counter 0,
duplicated counter 1) aborts calibration. -/
theorem c10_witness :
    ((fun i : Nat => decide (0 < i)) 0 = false ∧
      clkConsistent ((fun _ => 32) 0) = false) ∧
    (delayClkGet ((fun _ : Nat => 32) 0) = .error .hardwareInconsistent ∧
      (qdrCalibrate (fun i => decide (0 < i)) (fun _ => 32)).result =
        .error .hardwareInconsistent ∧
      (qdrCalibrate (fun i => decide (0 < i)) (fun _ => 32)).iters = 1) :=
  ⟨⟨rfl, rfl⟩,
   c10_clk_get_inconsistency_raises (fun i => decide (0 < i)) (fun _ => 32) rfl rfl⟩
